import Mathlib

/-!
Verification of the terraconf resource config renderer.

The renderer turns a Terraform resource state (a flat, dot-delimited
attribute map plus type, ID and dependencies) into HCL block-syntax text,
applying a caller-supplied overlay of default values and excluded names.

The embedding below follows the Go source of package terraconf.  The two
external collaborators are passed as parameters:
* `expand` stands for `flatmap.Expand` (Terraform's flat-key expander);
* `format` stands for `printer.Format` (the HCL block-text formatter),
  modelled as `String → Option String`, `none` meaning a formatting error.
Go runtime panics (failed type assertions) are modelled as `Option`
results, `none` meaning a panic.  Go maps are modelled as association
lists whose list order stands for the map's iteration order.
-/

namespace Terraconf

/-- Delimiter used inside flattened state attribute keys.  The Go constant
is the one-character string ".". -/
def tfStateKeyDelimiter : Char := '.'

/-- Replacement for the delimiter when sanitizing resource IDs. -/
def tfStateKeyDelimiterReplacement : Char := '_'

/-- Dynamic values stored in `ResourceDefaults` and produced by the
flat-key expander.  `vInt` collapses Go's `int`, `int8`, `int16`, `int32`
and `int64` cases, all of which render identically via `%d`.  `vOther`
stands for any value of a kind the renderer does not recognize (such as a
struct or a byte slice). -/
inductive Value where
  | vString : String → Value
  | vBool : Bool → Value
  | vInt : Int → Value
  | vList : List Value → Value
  | vMap : List (String × Value) → Value
  | vOther : Value

abbrev ResourceDefaults := List (String × Value)
abbrev ResourceExcludes := List String

/-- Go `isPrimitive`: strings, booleans and integers of any width. -/
def isPrimitive : Value → Bool
  | .vString _ => true
  | .vBool _ => true
  | .vInt _ => true
  | _ => false

/-- One lowercase hexadecimal digit, as produced by Go's `%02x`. -/
def hexDigit (n : Nat) : Char :=
  if n < 10 then Char.ofNat (48 + n) else Char.ofNat (87 + n)

/-- Two lowercase hexadecimal digits for a byte value. -/
def hexByte (n : Nat) : String :=
  String.mk [hexDigit (n / 16 % 16), hexDigit (n % 16)]

/-- The escaping `strconv.Quote` applies to a single character.  Runes at
or above 0x7f that reach the final case are kept verbatim; Go keeps the
printable ones and escapes the rest using Unicode tables that the source's
state domain (printable text) never hits. -/
def goQuoteChar (c : Char) : String :=
  if c = '"' ∨ c = '\\' then String.mk ['\\', c]
  else if 0x20 ≤ c.toNat ∧ c.toNat < 0x7f then String.mk [c]
  else if c = '\x07' then "\\a"
  else if c = '\x08' then "\\b"
  else if c = '\x0c' then "\\f"
  else if c = '\n' then "\\n"
  else if c = '\r' then "\\r"
  else if c = '\t' then "\\t"
  else if c = '\x0b' then "\\v"
  else if c.toNat < 0x20 then "\\x" ++ hexByte c.toNat
  else String.mk [c]

/-- Body of `strconv.Quote`: escape each character in turn. -/
def goQuoteInner : List Char → String
  | [] => ""
  | c :: cs => goQuoteChar c ++ goQuoteInner cs

/-- Go `strconv.Quote`: a double-quoted Go string literal with internal
escaping. -/
def goQuote (s : String) : String :=
  "\"" ++ goQuoteInner s.data ++ "\""

/-- Go `getPrimitiveValueString`: strings via `strconv.Quote`, booleans as
the quoted literal, integers in decimal via `%d`, anything else as the
literal text `unknown`. -/
def getPrimitiveValueString : Value → String
  | .vString s => goQuote s
  | .vBool b => "\"" ++ (if b then "true" else "false") ++ "\""
  | .vInt n => Int.repr n
  | _ => "unknown"

/-- Go `getPrimitiveAttributeString`, including the `date` carve-out for
empty quoted values. -/
def getPrimitiveAttributeString (k : String) (rawValue : Value) : String :=
  let v := getPrimitiveValueString rawValue
  if k = "date" ∧ v = "\"\"" then ""
  else k ++ " = " ++ v ++ "\n"

/-- Go `getPrimitiveAttributeListString`: `name = [\n` then each element
via the primitive renderer followed by a comma, then `]\n`. -/
def getPrimitiveAttributeListString (attrName : String) (list : List Value) : String :=
  attrName ++ " = [\n"
    ++ list.foldl (fun s v => s ++ getPrimitiveValueString v ++ ",") ""
    ++ "]\n"

/-- Go `getDependsString`: a `depends_on` list when dependencies exist, in
the original order, each rendered via the primitive renderer (note the Go
loop inserts no separators). -/
def getDependsString (dependencies : List String) : String :=
  if dependencies.length > 0 then
    "depends_on = [\n"
      ++ dependencies.foldl (fun s v => s ++ getPrimitiveValueString (.vString v)) ""
      ++ "]\n"
  else ""

mutual

/-- The body loop of Go `getMapAttributeString`: render each entry, in the
map's iteration order (the list order), dispatching primitives to the
primitive renderer and everything else to `getAttributeString`. -/
def renderEntries : List (String × Value) → Option String
  | [] => some ""
  | (k, v) :: rest =>
    match (if isPrimitive v then some (getPrimitiveAttributeString k v)
           else getAttributeString k v) with
    | none => none
    | some hd =>
      match renderEntries rest with
      | none => none
      | some tl => some (hd ++ tl)
termination_by l => sizeOf l
decreasing_by all_goals (simp_wf; try omega)

/-- Go `getMapAttributeString`: `name {\n`, the rendered entries, `}\n`. -/
def getMapAttributeString (attrName : String) (m : List (String × Value)) : Option String :=
  match renderEntries m with
  | none => none
  | some body => some (attrName ++ " \x7b\n" ++ body ++ "\x7d\n")
termination_by 1 + sizeOf m
decreasing_by all_goals (simp_wf; try omega)

/-- The non-primitive branch of the list case of Go `getAttributeString`:
each element is type-asserted to a string-keyed map (`none` models the
panic of a failed assertion) and rendered as its own named block. -/
def renderListItems (attrName : String) : List Value → Option String
  | [] => some ""
  | item :: rest =>
    match item with
    | .vMap m =>
      match getMapAttributeString attrName m with
      | none => none
      | some hd =>
        match renderListItems attrName rest with
        | none => none
        | some tl => some (hd ++ tl)
    | _ => none
termination_by l => sizeOf l
decreasing_by all_goals (simp_wf; try omega)

/-- Go `getAttributeString`: dispatch on the dynamic shape of the value.
A non-empty list whose first element is primitive renders as a primitive
list; any other list renders element-wise through the map renderer; a
non-empty map renders as a block, and an empty map renders nothing; all
remaining shapes go to the primitive attribute renderer. -/
def getAttributeString (attrName : String) (attrRawVal : Value) : Option String :=
  match attrRawVal with
  | .vList [] => renderListItems attrName []
  | .vList (v0 :: rest) =>
    if isPrimitive v0 then some (getPrimitiveAttributeListString attrName (v0 :: rest))
    else renderListItems attrName (v0 :: rest)
  | .vMap m => if m.length > 0 then getMapAttributeString attrName m else some ""
  | v => some (getPrimitiveAttributeString attrName v)
termination_by 1 + sizeOf attrRawVal
decreasing_by all_goals (simp_wf; try omega)

end

/-- Go `sanitizeResourceID`: `strings.Replace(id, ".", "_", -1)`.  Since
the pattern and replacement are single characters, replacing every
occurrence is a character-wise map. -/
def sanitizeResourceID (id : String) : String :=
  String.mk (id.data.map (fun c =>
    if c = tfStateKeyDelimiter then tfStateKeyDelimiterReplacement else c))

/-- The first path segment of a flat key:
`strings.SplitN(k, ".", 2)[0]`, the substring before the first delimiter
(the whole key when the delimiter is absent). -/
def firstSegment (k : String) : String :=
  String.mk (k.data.takeWhile (fun c => c ≠ tfStateKeyDelimiter))

/-- Go map read `m[k]`, returning the first binding in iteration order
(keys of a Go map are unique, so at most one binding exists). -/
def goLookup {α : Type} : List (String × α) → String → Option α
  | [], _ => none
  | (k, v) :: rest, key => if k = key then some v else goLookup rest key

/-- One step of the loop in Go `getUniqueAttributeNames`:
`names[name] = false`, overwriting when the key exists and appending a
fresh binding otherwise. -/
def insertAttrName (names : List (String × Bool)) (name : String) : List (String × Bool) :=
  if names.any (fun q => q.1 = name) then
    names.map (fun q => if q.1 = name then (name, false) else q)
  else names ++ [(name, false)]

/-- The loop of Go `getUniqueAttributeNames` over the flat keys. -/
def getUniqueAttributeNamesAux (names : List (String × Bool)) :
    List (String × String) → List (String × Bool)
  | [] => names
  | p :: rest => getUniqueAttributeNamesAux (insertAttrName names (firstSegment p.1)) rest

/-- Go `getUniqueAttributeNames`: the map from each first path segment of
a flat key to `false`. -/
def getUniqueAttributeNames (attrMap : List (String × String)) : List (String × Bool) :=
  getUniqueAttributeNamesAux [] attrMap

/-- One step of the defaults-merging loop in `GetResourceStateConfigString`:
`if _, ok := attrNames[attrName]; !ok declare attrNames[attrName] = true`. -/
def addDefaultName (names : List (String × Bool)) (name : String) : List (String × Bool) :=
  if names.any (fun q => q.1 = name) then names else names ++ [(name, true)]

/-- The defaults-merging loop over the entries of `defaults`. -/
def addDefaultNamesAux (names : List (String × Bool)) :
    List (String × Value) → List (String × Bool)
  | [] => names
  | p :: rest => addDefaultNamesAux (addDefaultName names p.1) rest

/-- The attribute-name map after merging names that appear only in
`defaults` (marked `true`) into the names discovered from state
(marked `false`). -/
def attrNamesWithDefaults (attrs : List (String × String)) (defaults : ResourceDefaults) :
    List (String × Bool) :=
  addDefaultNamesAux (getUniqueAttributeNames attrs) defaults

/-- Go map insert `excludes[name] = struct\x7b\x7d\x7b\x7d`: a no-op when
the key is present, a fresh binding otherwise. -/
def insertName (name : String) (excludes : ResourceExcludes) : ResourceExcludes :=
  if excludes.contains name then excludes else excludes ++ [name]

/-- `terraform.InstanceState`, restricted to the fields the renderer
reads: the primary ID and the flat attribute map. -/
structure InstanceState where
  id : String
  attributes : List (String × String)

/-- `terraform.ResourceState`, restricted to the fields the renderer
reads. -/
structure ResourceState where
  type : String
  dependencies : List String
  primary : InstanceState

/-- Lexicographic comparison of character sequences.  This is the string
order `sort.Strings` uses: Go compares strings byte-wise, and on UTF-8
text byte order coincides with code-point order. -/
def charListLe : List Char → List Char → Bool
  | [], _ => true
  | _ :: _, [] => false
  | c :: cs, d :: ds =>
    if c.toNat < d.toNat then true
    else if d.toNat < c.toNat then false
    else charListLe cs ds

/-- Go's string order `a <= b`. -/
def goStringLe (a b : String) : Bool := charListLe a.data b.data

/-- The attribute names in the order the render loop visits them:
the keys of the attribute-name map sorted with `sort.Strings`. -/
def sortedAttrNames (attrs : List (String × String)) (defaults : ResourceDefaults) :
    List String :=
  ((attrNamesWithDefaults attrs defaults).map Prod.fst).insertionSort
    (fun a b => goStringLe a b = true)

/-- The surviving top-level names: the sorted names minus the excluded
ones (after the unconditional insertion of "id"). -/
def survivingAttrNames (attrs : List (String × String)) (defaults : ResourceDefaults)
    (excludes : ResourceExcludes) : List String :=
  (sortedAttrNames attrs defaults).filter
    (fun n => !(insertName "id" excludes).contains n)

/-- The body of one iteration of the render loop in
`GetResourceStateConfigString` (after the excludes check): expand the
attribute from state, and use the default value instead when the name was
marked as default-only and a default exists. -/
def renderTopAttr (expand : List (String × String) → String → Value)
    (attrs : List (String × String)) (attrNames : List (String × Bool))
    (defaults : ResourceDefaults) (attrName : String) : Option String :=
  let attrRawVal := expand attrs attrName
  let useDefault := (goLookup attrNames attrName).getD false
  match goLookup defaults attrName with
  | some defaultValue =>
    if useDefault then getAttributeString attrName defaultValue
    else getAttributeString attrName attrRawVal
  | none => getAttributeString attrName attrRawVal

/-- The render loop of `GetResourceStateConfigString`, recording which
attribute produced which text.  The Go loop appends the texts directly to
the accumulator, in this order; keeping the `(name, text)` pairs makes the
per-attribute contributions visible. -/
def renderBodyParts (expand : List (String × String) → String → Value)
    (attrs : List (String × String)) (attrNames : List (String × Bool))
    (defaults : ResourceDefaults) (excludes : ResourceExcludes) :
    List String → Option (List (String × String))
  | [] => some []
  | attrName :: rest =>
    if excludes.contains attrName then
      renderBodyParts expand attrs attrNames defaults excludes rest
    else
      match renderTopAttr expand attrs attrNames defaults attrName with
      | none => none
      | some t =>
        match renderBodyParts expand attrs attrNames defaults excludes rest with
        | none => none
        | some parts => some ((attrName, t) :: parts)

/-- The `(name, text)` contributions of the render loop for a resource:
the loop runs over the sorted attribute names with "id" added to the
excludes. -/
def topLevelParts (expand : List (String × String) → String → Value)
    (state : ResourceState) (defaults : ResourceDefaults)
    (excludes : ResourceExcludes) : Option (List (String × String)) :=
  renderBodyParts expand state.primary.attributes
    (attrNamesWithDefaults state.primary.attributes defaults) defaults
    (insertName "id" excludes)
    (sortedAttrNames state.primary.attributes defaults)

/-- The raw block text accumulated by `GetResourceStateConfigString`
before it is handed to the formatter: header, attribute texts in loop
order, dependency list, closing brace. -/
def rawResourceConfigString (expand : List (String × String) → String → Value)
    (state : ResourceState) (defaults : ResourceDefaults)
    (excludes : ResourceExcludes) : Option String :=
  match topLevelParts expand state defaults excludes with
  | none => none
  | some parts =>
    some ("resource \"" ++ state.type ++ "\" \""
      ++ sanitizeResourceID state.primary.id ++ "\" \x7b\n"
      ++ (parts.map Prod.snd).foldl (fun a b => a ++ b) ""
      ++ getDependsString state.dependencies
      ++ "\x7d\n")

/-- Go `formatConfig`: run the external formatter and silently turn a
formatting error into the empty string. -/
def formatConfig (format : String → Option String) (s : String) : String :=
  match format s with
  | none => ""
  | some b => b

/-- Go `GetResourceStateConfigString`, parameterized by the two external
collaborators (`expand` for `flatmap.Expand`, `format` for
`printer.Format`).  `none` models a runtime panic inside the render
loop. -/
def GetResourceStateConfigString (format : String → Option String)
    (expand : List (String × String) → String → Value)
    (state : ResourceState) (defaults : ResourceDefaults)
    (excludes : ResourceExcludes) : Option String :=
  match rawResourceConfigString expand state defaults excludes with
  | none => none
  | some raw => some (formatConfig format raw)

/-- `GetResourceStateConfigString` together with the final values of the
three caller-owned arguments.  The Go function's only write to
caller-visible data is `excludes["id"] = struct\x7b\x7d\x7b\x7d` (it never
assigns to the resource state or to `defaults`), so the final `excludes`
is the insertion of "id" and the other two are returned as passed. -/
def GetResourceStateConfigStringFull (format : String → Option String)
    (expand : List (String × String) → String → Value)
    (state : ResourceState) (defaults : ResourceDefaults)
    (excludes : ResourceExcludes) :
    Option String × ResourceState × ResourceDefaults × ResourceExcludes :=
  (GetResourceStateConfigString format expand state defaults excludes,
   state, defaults, insertName "id" excludes)

/-- Distinguishes map-shaped values: the only shape that survives the
element type assertion in the list branch of `getAttributeString`. -/
def isMapValue : Value → Bool
  | .vMap _ => true
  | _ => false

/-! ## Helper lemmas -/

theorem char_eq_of_toNat_eq {c d : Char} (h : c.toNat = d.toNat) : c = d :=
  Char.eq_of_val_eq (UInt32.ext h)

theorem charListLe_total : ∀ cs ds : List Char,
    charListLe cs ds = true ∨ charListLe ds cs = true := by
  intro cs
  induction cs with
  | nil => intro ds; left; rfl
  | cons c cs ih =>
    intro ds
    cases ds with
    | nil => right; rfl
    | cons d ds =>
      simp only [charListLe]
      rcases Nat.lt_trichotomy c.toNat d.toNat with h | h | h
      · left; rw [if_pos h]
      · rw [if_neg (by omega), if_neg (by omega), if_neg (by omega), if_neg (by omega)]
        exact ih ds
      · right; rw [if_pos h]

theorem charListLe_trans : ∀ as bs cs : List Char,
    charListLe as bs = true → charListLe bs cs = true → charListLe as cs = true := by
  intro as
  induction as with
  | nil => intro bs cs _ _; rfl
  | cons a as ih =>
    intro bs cs hab hbc
    cases bs with
    | nil => simp [charListLe] at hab
    | cons b bs =>
      cases cs with
      | nil => simp [charListLe] at hbc
      | cons c cs =>
        simp only [charListLe] at hab hbc ⊢
        rcases Nat.lt_trichotomy a.toNat b.toNat with h1 | h1 | h1
        · rcases Nat.lt_trichotomy b.toNat c.toNat with h2 | h2 | h2
          · rw [if_pos (by omega)]
          · rw [if_pos (by omega)]
          · rw [if_neg (by omega), if_pos h2] at hbc; cases hbc
        · rw [if_neg (by omega), if_neg (by omega)] at hab
          rcases Nat.lt_trichotomy b.toNat c.toNat with h2 | h2 | h2
          · rw [if_pos (by omega)]
          · rw [if_neg (by omega), if_neg (by omega)] at hbc
            rw [if_neg (by omega), if_neg (by omega)]
            exact ih bs cs hab hbc
          · rw [if_neg (by omega), if_pos h2] at hbc; cases hbc
        · rw [if_neg (by omega), if_pos h1] at hab; cases hab

theorem charListLe_antisymm : ∀ as bs : List Char,
    charListLe as bs = true → charListLe bs as = true → as = bs := by
  intro as
  induction as with
  | nil =>
    intro bs _ hba
    cases bs with
    | nil => rfl
    | cons b bs => simp [charListLe] at hba
  | cons a as ih =>
    intro bs hab hba
    cases bs with
    | nil => simp [charListLe] at hab
    | cons b bs =>
      simp only [charListLe] at hab hba
      rcases Nat.lt_trichotomy a.toNat b.toNat with h1 | h1 | h1
      · rw [if_neg (by omega), if_pos h1] at hba; cases hba
      · rw [if_neg (by omega), if_neg (by omega)] at hab
        rw [if_neg (by omega), if_neg (by omega)] at hba
        have hc : a = b := char_eq_of_toNat_eq (by omega)
        rw [hc, ih bs hab hba]
      · rw [if_neg (by omega), if_pos h1] at hab; cases hab

instance : IsTotal String (fun a b => goStringLe a b = true) :=
  ⟨fun a b => charListLe_total a.data b.data⟩

instance : IsTrans String (fun a b => goStringLe a b = true) :=
  ⟨fun a b c => charListLe_trans a.data b.data c.data⟩

instance : IsAntisymm String (fun a b => goStringLe a b = true) :=
  ⟨fun a b h1 h2 => by
    have hd := charListLe_antisymm a.data b.data h1 h2
    cases a; cases b; exact congrArg String.mk hd⟩

theorem any_key_eq_iff_mem {α : Type} (ns : List (String × α)) (key : String) :
    ns.any (fun q => q.1 = key) = true ↔ key ∈ ns.map Prod.fst := by
  simp [List.any_eq_true, List.mem_map]

theorem goLookup_eq_none_iff {α : Type} (l : List (String × α)) (key : String) :
    goLookup l key = none ↔ key ∉ l.map Prod.fst := by
  induction l with
  | nil => simp [goLookup]
  | cons p rest ih =>
    obtain ⟨k, v⟩ := p
    by_cases h : k = key
    · subst h; simp [goLookup]
    · simp only [goLookup, if_neg h, ih, List.map_cons, List.mem_cons]
      constructor
      · intro hn hor
        rcases hor with rfl | hmem
        · exact h rfl
        · exact hn hmem
      · intro hn hmem
        exact hn (Or.inr hmem)

theorem goLookup_append {α : Type} (l1 l2 : List (String × α)) (key : String) :
    goLookup (l1 ++ l2) key
      = match goLookup l1 key with
        | some v => some v
        | none => goLookup l2 key := by
  induction l1 with
  | nil => simp [goLookup]
  | cons p rest ih =>
    obtain ⟨k, v⟩ := p
    by_cases h : k = key
    · simp [goLookup, h]
    · simp only [List.cons_append, goLookup, if_neg h]
      exact ih

theorem map_fst_insertAttrName (ns : List (String × Bool)) (name : String) :
    (insertAttrName ns name).map Prod.fst
      = if ns.any (fun q => q.1 = name) then ns.map Prod.fst
        else ns.map Prod.fst ++ [name] := by
  unfold insertAttrName
  by_cases h : ns.any (fun q => q.1 = name)
  · rw [if_pos h, if_pos h, List.map_map]
    apply List.map_congr_left
    intro q _
    by_cases hq : q.1 = name
    · simp [hq, Function.comp]
    · simp [hq, Function.comp]
  · rw [if_neg h, if_neg h, List.map_append]
    rfl

theorem mem_map_fst_insertAttrName (ns : List (String × Bool)) (name n : String) :
    n ∈ (insertAttrName ns name).map Prod.fst
      ↔ n ∈ ns.map Prod.fst ∨ n = name := by
  rw [map_fst_insertAttrName]
  by_cases h : ns.any (fun q => q.1 = name)
  · rw [if_pos h]
    constructor
    · exact Or.inl
    · rintro (hm | rfl)
      · exact hm
      · exact (any_key_eq_iff_mem ns n).mp h
  · rw [if_neg h]
    simp [List.mem_append]

theorem nodup_map_fst_insertAttrName (ns : List (String × Bool)) (name : String)
    (h : (ns.map Prod.fst).Nodup) :
    ((insertAttrName ns name).map Prod.fst).Nodup := by
  rw [map_fst_insertAttrName]
  by_cases hc : ns.any (fun q => q.1 = name)
  · rw [if_pos hc]; exact h
  · rw [if_neg hc]
    refine List.Nodup.append h (List.nodup_singleton name) ?_
    intro a ha hb
    rw [List.mem_singleton] at hb
    subst hb
    exact absurd ((any_key_eq_iff_mem ns a).mpr ha) (by simpa using hc)

theorem map_fst_addDefaultName (ns : List (String × Bool)) (name : String) :
    (addDefaultName ns name).map Prod.fst
      = if ns.any (fun q => q.1 = name) then ns.map Prod.fst
        else ns.map Prod.fst ++ [name] := by
  unfold addDefaultName
  by_cases h : ns.any (fun q => q.1 = name)
  · rw [if_pos h, if_pos h]
  · rw [if_neg h, if_neg h, List.map_append]
    rfl

theorem mem_map_fst_addDefaultName (ns : List (String × Bool)) (name n : String) :
    n ∈ (addDefaultName ns name).map Prod.fst
      ↔ n ∈ ns.map Prod.fst ∨ n = name := by
  rw [map_fst_addDefaultName]
  by_cases h : ns.any (fun q => q.1 = name)
  · rw [if_pos h]
    constructor
    · exact Or.inl
    · rintro (hm | rfl)
      · exact hm
      · exact (any_key_eq_iff_mem ns n).mp h
  · rw [if_neg h]
    simp [List.mem_append]

theorem nodup_map_fst_addDefaultName (ns : List (String × Bool)) (name : String)
    (h : (ns.map Prod.fst).Nodup) :
    ((addDefaultName ns name).map Prod.fst).Nodup := by
  rw [map_fst_addDefaultName]
  by_cases hc : ns.any (fun q => q.1 = name)
  · rw [if_pos hc]; exact h
  · rw [if_neg hc]
    refine List.Nodup.append h (List.nodup_singleton name) ?_
    intro a ha hb
    rw [List.mem_singleton] at hb
    subst hb
    exact absurd ((any_key_eq_iff_mem ns a).mpr ha) (by simpa using hc)

theorem mem_map_fst_getUniqueAttributeNamesAux (l : List (String × String))
    (ns : List (String × Bool)) (n : String) :
    n ∈ (getUniqueAttributeNamesAux ns l).map Prod.fst
      ↔ n ∈ ns.map Prod.fst ∨ ∃ p ∈ l, firstSegment p.1 = n := by
  induction l generalizing ns with
  | nil => simp [getUniqueAttributeNamesAux]
  | cons p rest ih =>
    simp only [getUniqueAttributeNamesAux]
    rw [ih, mem_map_fst_insertAttrName]
    simp only [List.mem_cons]
    constructor
    · rintro ((hm | rfl) | ⟨q, hq, hfs⟩)
      · exact Or.inl hm
      · exact Or.inr ⟨p, Or.inl rfl, rfl⟩
      · exact Or.inr ⟨q, Or.inr hq, hfs⟩
    · rintro (hm | ⟨q, hq | hq, hfs⟩)
      · exact Or.inl (Or.inl hm)
      · subst hq; exact Or.inl (Or.inr hfs.symm)
      · exact Or.inr ⟨q, hq, hfs⟩

theorem nodup_map_fst_getUniqueAttributeNamesAux (l : List (String × String))
    (ns : List (String × Bool)) (h : (ns.map Prod.fst).Nodup) :
    ((getUniqueAttributeNamesAux ns l).map Prod.fst).Nodup := by
  induction l generalizing ns with
  | nil => exact h
  | cons p rest ih =>
    exact ih _ (nodup_map_fst_insertAttrName ns (firstSegment p.1) h)

theorem mem_map_fst_addDefaultNamesAux (dfs : List (String × Value))
    (ns : List (String × Bool)) (n : String) :
    n ∈ (addDefaultNamesAux ns dfs).map Prod.fst
      ↔ n ∈ ns.map Prod.fst ∨ ∃ p ∈ dfs, p.1 = n := by
  induction dfs generalizing ns with
  | nil => simp [addDefaultNamesAux]
  | cons p rest ih =>
    simp only [addDefaultNamesAux]
    rw [ih, mem_map_fst_addDefaultName]
    simp only [List.mem_cons]
    constructor
    · rintro ((hm | rfl) | ⟨q, hq, hfs⟩)
      · exact Or.inl hm
      · exact Or.inr ⟨p, Or.inl rfl, rfl⟩
      · exact Or.inr ⟨q, Or.inr hq, hfs⟩
    · rintro (hm | ⟨q, hq | hq, hfs⟩)
      · exact Or.inl (Or.inl hm)
      · subst hq; exact Or.inl (Or.inr hfs.symm)
      · exact Or.inr ⟨q, hq, hfs⟩

theorem nodup_map_fst_addDefaultNamesAux (dfs : List (String × Value))
    (ns : List (String × Bool)) (h : (ns.map Prod.fst).Nodup) :
    ((addDefaultNamesAux ns dfs).map Prod.fst).Nodup := by
  induction dfs generalizing ns with
  | nil => exact h
  | cons p rest ih => exact ih _ (nodup_map_fst_addDefaultName ns p.1 h)

theorem goLookup_addDefaultName_preserve (ns : List (String × Bool)) (name key : String)
    (v : Bool) (h : goLookup ns key = some v) :
    goLookup (addDefaultName ns name) key = some v := by
  unfold addDefaultName
  by_cases hc : ns.any (fun q => q.1 = name)
  · rw [if_pos hc]; exact h
  · rw [if_neg hc, goLookup_append, h]

theorem goLookup_addDefaultNamesAux_preserve (dfs : List (String × Value))
    (ns : List (String × Bool)) (key : String) (v : Bool)
    (h : goLookup ns key = some v) :
    goLookup (addDefaultNamesAux ns dfs) key = some v := by
  induction dfs generalizing ns with
  | nil => exact h
  | cons p rest ih =>
    exact ih _ (goLookup_addDefaultName_preserve ns p.1 key v h)

theorem goLookup_addDefaultNamesAux_some_true (dfs : List (String × Value))
    (ns : List (String × Bool)) (key : String)
    (hnone : goLookup ns key = none) (hmem : ∃ p ∈ dfs, p.1 = key) :
    goLookup (addDefaultNamesAux ns dfs) key = some true := by
  induction dfs generalizing ns with
  | nil => rcases hmem with ⟨p, hp, -⟩; exact absurd hp (List.not_mem_nil p)
  | cons p rest ih =>
    obtain ⟨k, v⟩ := p
    simp only [addDefaultNamesAux]
    by_cases hk : k = key
    · subst hk
      have hany : ¬ ns.any (fun q => q.1 = k) = true := by
        rw [any_key_eq_iff_mem]
        exact (goLookup_eq_none_iff ns k).mp hnone
      apply goLookup_addDefaultNamesAux_preserve
      show goLookup (addDefaultName ns k) k = some true
      unfold addDefaultName
      rw [if_neg hany, goLookup_append, hnone]
      simp [goLookup]
    · apply ih
      · show goLookup (addDefaultName ns k) key = none
        unfold addDefaultName
        by_cases hc : ns.any (fun q => q.1 = k)
        · rw [if_pos hc]; exact hnone
        · rw [if_neg hc, goLookup_append, hnone]
          simp [goLookup, hk]
      · rcases hmem with ⟨q, hq, hq1⟩
        rcases List.mem_cons.mp hq with rfl | h'
        · exact absurd hq1 hk
        · exact ⟨q, h', hq1⟩

theorem goLookup_getUniqueAttributeNames_none (attrs : List (String × String))
    (n : String) (h : ∀ p ∈ attrs, firstSegment p.1 ≠ n) :
    goLookup (getUniqueAttributeNames attrs) n = none := by
  rw [goLookup_eq_none_iff, getUniqueAttributeNames,
    mem_map_fst_getUniqueAttributeNamesAux]
  rintro (hm | ⟨p, hp, hfs⟩)
  · exact absurd hm (by simp)
  · exact h p hp hfs

theorem mem_insertName (name k : String) (excludes : ResourceExcludes) :
    k ∈ insertName name excludes ↔ k ∈ excludes ∨ k = name := by
  unfold insertName
  by_cases h : excludes.contains name
  · rw [if_pos h]
    have hm : name ∈ excludes := by simpa using h
    constructor
    · exact Or.inl
    · rintro (hk | rfl)
      · exact hk
      · exact hm
  · rw [if_neg h]
    simp [List.mem_append]

theorem renderListItems_eq_none_of_nonMap (attrName : String) :
    ∀ items : List Value, (∃ v ∈ items, isMapValue v = false) →
      renderListItems attrName items = none := by
  intro items
  induction items with
  | nil => rintro ⟨v, hv, -⟩; exact absurd hv (List.not_mem_nil v)
  | cons item rest ih =>
    rintro ⟨v, hv, hnm⟩
    rcases List.mem_cons.mp hv with rfl | hv'
    · cases v <;> simp_all [renderListItems, isMapValue]
    · cases item with
      | vMap m =>
        rw [renderListItems]
        rw [ih ⟨v, hv', hnm⟩]
        cases getMapAttributeString attrName m <;> rfl
      | vString s => simp [renderListItems]
      | vBool b => simp [renderListItems]
      | vInt n => simp [renderListItems]
      | vList l => simp [renderListItems]
      | vOther => simp [renderListItems]

theorem isMapValue_eq_false_of_isPrimitive {v : Value} (h : isPrimitive v = true) :
    isMapValue v = false := by
  cases v <;> simp_all [isPrimitive, isMapValue]

theorem newline_not_mem_hexDigit {m : Nat} (h : m < 16) : hexDigit m ≠ '\n' := by
  interval_cases m <;> decide

theorem newline_not_mem_goQuoteChar (c : Char) : '\n' ∉ (goQuoteChar c).data := by
  unfold goQuoteChar
  split_ifs with h1 h2 h3 h4 h5 h6 h7 h8 h9 h10
  · rcases h1 with rfl | rfl <;> decide
  · show '\n' ∉ [c]
    simp only [List.mem_singleton]
    intro heq
    rw [← heq] at h2
    exact absurd h2.1 (by decide)
  · decide
  · decide
  · decide
  · decide
  · decide
  · decide
  · decide
  · intro hmem
    rw [String.data_append] at hmem
    have hdata : (hexByte c.toNat).data
        = [hexDigit (c.toNat / 16 % 16), hexDigit (c.toNat % 16)] := rfl
    rw [hdata] at hmem
    rcases List.mem_append.mp hmem with h | h
    · exact absurd h (by decide)
    · rcases List.mem_cons.mp h with heq | h2
      · exact newline_not_mem_hexDigit (Nat.mod_lt _ (by decide)) heq.symm
      · rcases List.mem_cons.mp h2 with heq | h3
        · exact newline_not_mem_hexDigit (Nat.mod_lt _ (by decide)) heq.symm
        · exact absurd h3 (List.not_mem_nil _)
  · show '\n' ∉ [c]
    simp only [List.mem_singleton]
    intro heq
    rw [← heq] at h10
    exact h10 (by decide)

theorem newline_not_mem_goQuoteInner : ∀ cs : List Char, '\n' ∉ (goQuoteInner cs).data := by
  intro cs
  induction cs with
  | nil => simp [goQuoteInner]
  | cons c rest ih =>
    rw [goQuoteInner, String.data_append]
    intro hmem
    rcases List.mem_append.mp hmem with h | h
    · exact newline_not_mem_goQuoteChar c h
    · exact ih h

theorem newline_not_mem_goQuote (s : String) : '\n' ∉ (goQuote s).data := by
  unfold goQuote
  rw [String.data_append, String.data_append]
  intro hmem
  rcases List.mem_append.mp hmem with h | h
  · rcases List.mem_append.mp h with h' | h'
    · exact absurd h' (by decide)
    · exact newline_not_mem_goQuoteInner s.data h'
  · exact absurd h (by decide)

theorem getAttributeString_vOther (n : String) :
    getAttributeString n Value.vOther = some (n ++ " = " ++ "unknown" ++ "\n") := by
  simp [getAttributeString, getPrimitiveAttributeString, getPrimitiveValueString]

theorem getAttributeString_vString (n s : String) :
    getAttributeString n (Value.vString s)
      = some (getPrimitiveAttributeString n (Value.vString s)) := by
  simp [getAttributeString]

theorem mem_map_fst_attrNamesWithDefaults (attrs : List (String × String))
    (defaults : ResourceDefaults) (n : String) :
    n ∈ (attrNamesWithDefaults attrs defaults).map Prod.fst
      ↔ (∃ p ∈ attrs, firstSegment p.1 = n) ∨ ∃ p ∈ defaults, p.1 = n := by
  rw [attrNamesWithDefaults, mem_map_fst_addDefaultNamesAux, getUniqueAttributeNames,
    mem_map_fst_getUniqueAttributeNamesAux]
  simp

theorem nodup_map_fst_attrNamesWithDefaults (attrs : List (String × String))
    (defaults : ResourceDefaults) :
    ((attrNamesWithDefaults attrs defaults).map Prod.fst).Nodup :=
  nodup_map_fst_addDefaultNamesAux _ _
    (nodup_map_fst_getUniqueAttributeNamesAux _ _ (by simp))

theorem sorted_sortedAttrNames (attrs : List (String × String))
    (defaults : ResourceDefaults) :
    List.Sorted (fun a b => goStringLe a b = true) (sortedAttrNames attrs defaults) :=
  List.sorted_insertionSort _ _

theorem nodup_sortedAttrNames (attrs : List (String × String))
    (defaults : ResourceDefaults) : (sortedAttrNames attrs defaults).Nodup :=
  (List.perm_insertionSort _ _).nodup_iff.mpr (nodup_map_fst_attrNamesWithDefaults _ _)

theorem mem_sortedAttrNames (attrs : List (String × String))
    (defaults : ResourceDefaults) (n : String) :
    n ∈ sortedAttrNames attrs defaults
      ↔ (∃ p ∈ attrs, firstSegment p.1 = n) ∨ ∃ p ∈ defaults, p.1 = n := by
  rw [sortedAttrNames, (List.perm_insertionSort _ _).mem_iff,
    mem_map_fst_attrNamesWithDefaults]

theorem renderBodyParts_map_fst (expand : List (String × String) → String → Value)
    (attrs : List (String × String)) (attrNames : List (String × Bool))
    (defaults : ResourceDefaults) (excludes : ResourceExcludes) :
    ∀ (names : List String) (parts : List (String × String)),
      renderBodyParts expand attrs attrNames defaults excludes names = some parts →
      parts.map Prod.fst = names.filter (fun n => !excludes.contains n) := by
  intro names
  induction names with
  | nil =>
    intro parts h
    rw [renderBodyParts] at h
    obtain rfl := Option.some.inj h
    rfl
  | cons n rest ih =>
    intro parts h
    rw [renderBodyParts] at h
    by_cases hc : excludes.contains n
    · rw [if_pos hc] at h
      rw [ih parts h, List.filter_cons, if_neg (by rw [hc]; decide)]
    · have hc' : excludes.contains n = false := by
        revert hc; cases excludes.contains n <;> simp
      rw [if_neg hc] at h
      cases ht : renderTopAttr expand attrs attrNames defaults n with
      | none => rw [ht] at h; cases h
      | some t =>
        rw [ht] at h
        cases hr : renderBodyParts expand attrs attrNames defaults excludes rest with
        | none => rw [hr] at h; cases h
        | some ps =>
          rw [hr] at h
          obtain rfl := Option.some.inj h
          rw [List.map_cons, ih ps hr, List.filter_cons, if_pos (by rw [hc']; decide)]

theorem renderBodyParts_mem (expand : List (String × String) → String → Value)
    (attrs : List (String × String)) (attrNames : List (String × Bool))
    (defaults : ResourceDefaults) (excludes : ResourceExcludes) :
    ∀ (names : List String) (parts : List (String × String)) (n : String),
      n ∈ names → excludes.contains n = false →
      renderBodyParts expand attrs attrNames defaults excludes names = some parts →
      ∃ t, (n, t) ∈ parts
        ∧ renderTopAttr expand attrs attrNames defaults n = some t := by
  intro names
  induction names with
  | nil => intro parts n hn; exact absurd hn (List.not_mem_nil n)
  | cons m rest ih =>
    intro parts n hn hnc h
    rw [renderBodyParts] at h
    by_cases hc : excludes.contains m
    · rw [if_pos hc] at h
      rcases List.mem_cons.mp hn with rfl | hn'
      · rw [hnc] at hc; cases hc
      · exact ih parts n hn' hnc h
    · rw [if_neg hc] at h
      cases ht : renderTopAttr expand attrs attrNames defaults m with
      | none => rw [ht] at h; cases h
      | some t =>
        rw [ht] at h
        cases hr : renderBodyParts expand attrs attrNames defaults excludes rest with
        | none => rw [hr] at h; cases h
        | some ps =>
          rw [hr] at h
          obtain rfl := Option.some.inj h
          rcases List.mem_cons.mp hn with rfl | hn'
          · exact ⟨t, List.mem_cons_self _ _, ht⟩
          · obtain ⟨t', ht'mem, ht'⟩ := ih ps n hn' hnc hr
            exact ⟨t', List.mem_cons_of_mem _ ht'mem, ht'⟩

/-! ## Claims -/

/-- Claim C1 counterexample: for the attribute name `tags`, an empty map
value renders as the empty string, not as the empty block `tags {\n}\n`,
and an empty list value renders as the empty string, not as the empty
list `tags = [\n]\n`. -/
theorem emptyCollection_counterexample :
    getAttributeString "tags" (Value.vMap []) = some ""
      ∧ getAttributeString "tags" (Value.vList []) = some ""
      ∧ getAttributeString "tags" (Value.vMap []) ≠ some "tags \x7b\n\x7d\n"
      ∧ getAttributeString "tags" (Value.vList []) ≠ some "tags = [\n]\n" := by
  have h1 : getAttributeString "tags" (Value.vMap []) = some "" := by
    simp [getAttributeString]
  have h2 : getAttributeString "tags" (Value.vList []) = some "" := by
    simp [getAttributeString, renderListItems]
  refine ⟨h1, h2, ?_, ?_⟩
  · rw [h1]; decide
  · rw [h2]; decide

/-- Claim C1, amended: for every attribute name, an expanded state value
that is an empty list or an empty map is skipped by the renderer — it
emits nothing (the empty string) for that name, not an empty list or an
empty block. -/
theorem emptyCollection_renders_nothing (attrName : String) :
    getAttributeString attrName (Value.vMap []) = some ""
      ∧ getAttributeString attrName (Value.vList []) = some "" := by
  constructor
  · simp [getAttributeString]
  · simp [getAttributeString, renderListItems]

/-- Claim C2: the two entry lists are permutations of each other, so they
are two iteration orders of one and the same two-entry Go map, yet
`getMapAttributeString` renders them to different strings.  The output of
`GetResourceStateConfigString` on a fixed (state, defaults, excludes)
triple therefore depends on the runtime iteration order of the map and
two calls need not produce byte-identical output. -/
theorem mapRender_depends_on_iteration_order :
    List.Perm [("a", Value.vString "a"), ("b", Value.vString "b")]
        [("b", Value.vString "b"), ("a", Value.vString "a")]
      ∧ getMapAttributeString "tags" [("a", Value.vString "a"), ("b", Value.vString "b")]
          ≠ getMapAttributeString "tags" [("b", Value.vString "b"), ("a", Value.vString "a")] := by
  constructor
  · exact List.Perm.swap _ _ _
  · have h1 : getMapAttributeString "tags" [("a", Value.vString "a"), ("b", Value.vString "b")]
        = some "tags \x7b\na = \"a\"\nb = \"b\"\n\x7d\n" := by
      simp [getMapAttributeString, renderEntries, isPrimitive, getPrimitiveAttributeString,
        getPrimitiveValueString, goQuote, goQuoteInner, goQuoteChar]
    have h2 : getMapAttributeString "tags" [("b", Value.vString "b"), ("a", Value.vString "a")]
        = some "tags \x7b\nb = \"b\"\na = \"a\"\n\x7d\n" := by
      simp [getMapAttributeString, renderEntries, isPrimitive, getPrimitiveAttributeString,
        getPrimitiveValueString, goQuote, goQuoteInner, goQuoteChar]
    rw [h1, h2]; decide

/-- Claim C3: for every attribute name in the excludes set — including the
always-added "id" — the render loop of `GetResourceStateConfigString`
emits no attribute with that name: the name is absent from the
`(name, text)` contributions that make up the rendered body, whether or
not the name also occurs in the state attributes or in `defaults`. -/
theorem excluded_names_not_rendered (expand : List (String × String) → String → Value)
    (state : ResourceState) (defaults : ResourceDefaults) (excludes : ResourceExcludes)
    (name : String) (hname : name ∈ excludes ∨ name = "id") :
    ∀ parts, topLevelParts expand state defaults excludes = some parts →
      name ∉ parts.map Prod.fst := by
  intro parts h hmem
  rw [topLevelParts] at h
  rw [renderBodyParts_map_fst _ _ _ _ _ _ parts h, List.mem_filter] at hmem
  have hcont : (insertName "id" excludes).contains name = true := by
    have hmem2 : name ∈ insertName "id" excludes :=
      (mem_insertName "id" name excludes).mpr hname
    simpa using hmem2
  rw [hcont] at hmem
  exact absurd hmem.2 (by decide)

/-- Claim C3 witness: rendering the test resource with
excludes = \x7b"myexcludekey"\x7d emits neither "myexcludekey" nor "id",
although "myexcludekey" is present in the state attributes. -/
theorem excluded_names_not_rendered_witness :
    "myexcludekey" ∉
        ([("name", "name = unknown\n")] : List (String × String)).map Prod.fst
      ∧ "id" ∉ ([("name", "name = unknown\n")] : List (String × String)).map Prod.fst := by
  have heval : topLevelParts (fun _ _ => Value.vOther)
      ⟨"resource_type", [], ⟨"my.resource", [("name", "myname"), ("myexcludekey", "v")]⟩⟩
      [] ["myexcludekey"] = some [("name", "name = unknown\n")] := by
    show renderBodyParts (fun _ _ => Value.vOther) [("name", "myname"), ("myexcludekey", "v")]
      [("name", false), ("myexcludekey", false)] [] ["myexcludekey", "id"]
      ["myexcludekey", "name"] = some [("name", "name = unknown\n")]
    simp +decide [renderBodyParts, renderTopAttr, goLookup, getAttributeString_vOther]
  exact ⟨excluded_names_not_rendered (fun _ _ => Value.vOther)
      ⟨"resource_type", [], ⟨"my.resource", [("name", "myname"), ("myexcludekey", "v")]⟩⟩
      [] ["myexcludekey"] "myexcludekey" (Or.inl (by simp)) _ heval,
    excluded_names_not_rendered (fun _ _ => Value.vOther)
      ⟨"resource_type", [], ⟨"my.resource", [("name", "myname"), ("myexcludekey", "v")]⟩⟩
      [] ["myexcludekey"] "id" (Or.inr rfl) _ heval⟩

/-- Claim C4: an attribute name that has no flat state key starting with
it, that has a default value, and that is not excluded, is rendered from
the default value: the loop body renders exactly
`getAttributeString name default`, independently of the flat-key expander,
and the rendered body contains that text under that name. -/
theorem default_only_attribute_rendered_from_default
    (expand : List (String × String) → String → Value) (state : ResourceState)
    (defaults : ResourceDefaults) (excludes : ResourceExcludes)
    (name : String) (dv : Value)
    (habsent : ∀ p ∈ state.primary.attributes, firstSegment p.1 ≠ name)
    (hdef : goLookup defaults name = some dv)
    (hnotex : name ∉ excludes) (hnotid : name ≠ "id") :
    renderTopAttr expand state.primary.attributes
        (attrNamesWithDefaults state.primary.attributes defaults) defaults name
      = getAttributeString name dv
    ∧ ∀ parts, topLevelParts expand state defaults excludes = some parts →
        ∃ t, (name, t) ∈ parts ∧ getAttributeString name dv = some t := by
  have hnone : goLookup (getUniqueAttributeNames state.primary.attributes) name = none :=
    goLookup_getUniqueAttributeNames_none _ name habsent
  have hdmem : ∃ p ∈ defaults, p.1 = name := by
    have hk : name ∈ defaults.map Prod.fst := by
      by_contra hk
      rw [← goLookup_eq_none_iff] at hk
      rw [hk] at hdef
      cases hdef
    obtain ⟨p, hp, hp1⟩ := List.mem_map.mp hk
    exact ⟨p, hp, hp1⟩
  have hlookup : goLookup (attrNamesWithDefaults state.primary.attributes defaults) name
      = some true :=
    goLookup_addDefaultNamesAux_some_true defaults _ name hnone hdmem
  have hrta : renderTopAttr expand state.primary.attributes
      (attrNamesWithDefaults state.primary.attributes defaults) defaults name
      = getAttributeString name dv := by
    rw [renderTopAttr]
    rw [hlookup, hdef]
    rfl
  refine ⟨hrta, ?_⟩
  intro parts h
  rw [topLevelParts] at h
  have hmemsorted : name ∈ sortedAttrNames state.primary.attributes defaults :=
    (mem_sortedAttrNames _ _ name).mpr (Or.inr hdmem)
  have hcont : (insertName "id" excludes).contains name = false := by
    have hnm : name ∉ insertName "id" excludes := by
      rw [mem_insertName]
      rintro (hin | hid)
      · exact hnotex hin
      · exact hnotid hid
    revert hnm
    cases hcc : (insertName "id" excludes).contains name
    · intro _; rfl
    · intro hnm; exact absurd (by simpa using hcc) hnm
  obtain ⟨t, htmem, hteq⟩ := renderBodyParts_mem _ _ _ _ _ _ parts name
    hmemsorted hcont h
  exact ⟨t, htmem, hrta ▸ hteq⟩

/-- Claim C4 witness: with state attributes \x7b"name": "x"\x7d and
defaults \x7b"region": "us-east-1"\x7d, the rendered body contains the
attribute "region" with the text rendered from the default value,
`region = "us-east-1"`. -/
theorem default_only_attribute_rendered_from_default_witness :
    ∃ t, ("region", t) ∈
        ([("name", "name = unknown\n"), ("region", "region = \"us-east-1\"\n")] :
          List (String × String))
      ∧ getAttributeString "region" (Value.vString "us-east-1") = some t := by
  have h := default_only_attribute_rendered_from_default (fun _ _ => Value.vOther)
    ⟨"t", [], ⟨"i", [("name", "x")]⟩⟩ [("region", Value.vString "us-east-1")] []
    "region" (Value.vString "us-east-1") (by decide) rfl (by simp) (by decide)
  refine h.2 _ ?_
  show renderBodyParts (fun _ _ => Value.vOther) [("name", "x")]
    [("name", false), ("region", true)] [("region", Value.vString "us-east-1")] ["id"]
    ["name", "region"]
    = some [("name", "name = unknown\n"), ("region", "region = \"us-east-1\"\n")]
  simp +decide [renderBodyParts, renderTopAttr, goLookup, getAttributeString_vOther,
    getAttributeString_vString, getPrimitiveAttributeString, getPrimitiveValueString,
    goQuote, goQuoteInner, goQuoteChar]

/-- Claim C5: the surviving top-level attribute names are emitted in
strictly lexicographic order (sorted for Go's string order and pairwise
distinct), the emitted name sequence is exactly `survivingAttrNames`, and
that sequence is invariant under permuting the state attribute map and
the defaults map — i.e. it does not depend on the iteration order of the
underlying maps. -/
theorem surviving_names_sorted_and_order_independent
    (attrs attrs2 : List (String × String)) (defaults defaults2 : ResourceDefaults)
    (excludes : ResourceExcludes)
    (hattrs : attrs.Perm attrs2) (hdefaults : defaults.Perm defaults2) :
    List.Sorted (fun a b => goStringLe a b = true ∧ a ≠ b)
        (survivingAttrNames attrs defaults excludes)
      ∧ survivingAttrNames attrs defaults excludes
          = survivingAttrNames attrs2 defaults2 excludes
      ∧ ∀ (expand : List (String × String) → String → Value) (state : ResourceState)
          (parts : List (String × String)),
          state.primary.attributes = attrs →
          topLevelParts expand state defaults excludes = some parts →
          parts.map Prod.fst = survivingAttrNames attrs defaults excludes := by
  refine ⟨?_, ?_, ?_⟩
  · have hsorted : List.Sorted (fun a b => goStringLe a b = true)
        (survivingAttrNames attrs defaults excludes) :=
      (sorted_sortedAttrNames attrs defaults).sublist (List.filter_sublist _)
    have hnodup : (survivingAttrNames attrs defaults excludes).Nodup :=
      (nodup_sortedAttrNames attrs defaults).filter _
    exact hsorted.and hnodup
  · have hsorteq : sortedAttrNames attrs defaults = sortedAttrNames attrs2 defaults2 := by
      have hperm : List.Perm (sortedAttrNames attrs defaults)
          (sortedAttrNames attrs2 defaults2) := by
        have h1 : List.Perm (sortedAttrNames attrs defaults)
            ((attrNamesWithDefaults attrs defaults).map Prod.fst) :=
          List.perm_insertionSort _ _
        have h2 : List.Perm (sortedAttrNames attrs2 defaults2)
            ((attrNamesWithDefaults attrs2 defaults2).map Prod.fst) :=
          List.perm_insertionSort _ _
        have hk : List.Perm ((attrNamesWithDefaults attrs defaults).map Prod.fst)
            ((attrNamesWithDefaults attrs2 defaults2).map Prod.fst) := by
          rw [List.perm_ext_iff_of_nodup (nodup_map_fst_attrNamesWithDefaults _ _)
            (nodup_map_fst_attrNamesWithDefaults _ _)]
          intro n
          rw [mem_map_fst_attrNamesWithDefaults, mem_map_fst_attrNamesWithDefaults]
          constructor
          · rintro (⟨p, hp, hfs⟩ | ⟨p, hp, hfs⟩)
            · exact Or.inl ⟨p, hattrs.mem_iff.mp hp, hfs⟩
            · exact Or.inr ⟨p, hdefaults.mem_iff.mp hp, hfs⟩
          · rintro (⟨p, hp, hfs⟩ | ⟨p, hp, hfs⟩)
            · exact Or.inl ⟨p, hattrs.mem_iff.mpr hp, hfs⟩
            · exact Or.inr ⟨p, hdefaults.mem_iff.mpr hp, hfs⟩
        exact (h1.trans hk).trans h2.symm
      exact List.eq_of_perm_of_sorted hperm (sorted_sortedAttrNames attrs defaults)
        (sorted_sortedAttrNames attrs2 defaults2)
    unfold survivingAttrNames
    rw [hsorteq]
  · intro expand state parts hst h
    rw [topLevelParts, hst] at h
    rw [renderBodyParts_map_fst _ _ _ _ _ _ parts h]
    rfl

/-- Claim C5 witness: the theorem applied to two iteration orders of a
two-attribute map and to a concrete render: the surviving names come out
identical for both orders and equal to the emitted names, which are in
sorted order. -/
theorem surviving_names_sorted_and_order_independent_witness :
    survivingAttrNames [("b", "1"), ("a", "2")] [] []
        = survivingAttrNames [("a", "2"), ("b", "1")] [] []
      ∧ ([("a", "a = unknown\n"), ("b", "b = unknown\n")] :
          List (String × String)).map Prod.fst
          = survivingAttrNames [("b", "1"), ("a", "2")] [] [] := by
  have h := surviving_names_sorted_and_order_independent
    [("b", "1"), ("a", "2")] [("a", "2"), ("b", "1")] [] [] []
    (List.Perm.swap _ _ _) (List.Perm.refl [])
  refine ⟨h.2.1, h.2.2 (fun _ _ => Value.vOther) ⟨"t", [], ⟨"i", [("b", "1"), ("a", "2")]⟩⟩
    _ rfl ?_⟩
  show renderBodyParts (fun _ _ => Value.vOther) [("b", "1"), ("a", "2")]
    [("b", false), ("a", false)] [] ["id"] ["a", "b"]
    = some [("a", "a = unknown\n"), ("b", "b = unknown\n")]
  simp +decide [renderBodyParts, renderTopAttr, goLookup, getAttributeString_vOther]

/-- Claim C6: when the external block-text formatter fails on the
accumulated raw text, `GetResourceStateConfigString` returns the empty
string; the formatter's error is swallowed by `formatConfig` and never
reaches the caller. -/
theorem formatter_failure_yields_empty_string (format : String → Option String)
    (expand : List (String × String) → String → Value) (state : ResourceState)
    (defaults : ResourceDefaults) (excludes : ResourceExcludes) (raw : String)
    (hraw : rawResourceConfigString expand state defaults excludes = some raw)
    (hfail : format raw = none) :
    GetResourceStateConfigString format expand state defaults excludes = some "" := by
  rw [GetResourceStateConfigString, hraw]
  show some (formatConfig format raw) = some ""
  unfold formatConfig
  rw [hfail]

/-- Claim C6 witness: a formatter that always fails makes the renderer
return the empty string on a concrete resource. -/
theorem formatter_failure_yields_empty_string_witness :
    GetResourceStateConfigString (fun _ => none) (fun _ _ => Value.vOther)
      ⟨"t", [], ⟨"i", []⟩⟩ [] [] = some "" :=
  formatter_failure_yields_empty_string (fun _ => none) (fun _ _ => Value.vOther)
    ⟨"t", [], ⟨"i", []⟩⟩ [] [] _ rfl rfl

/-- Claim C7: the raw block text emitted by `GetResourceStateConfigString`
starts with the header `resource "<type>" "<sanitizedID>" {`, where the
sanitized ID replaces every occurrence of the delimiter "." in the
primary ID by "_" (so it contains no delimiter), and the identifier
"a.b.c" sanitizes to "a_b_c". -/
theorem resource_header_sanitized :
    (∀ (expand : List (String × String) → String → Value) (state : ResourceState)
        (defaults : ResourceDefaults) (excludes : ResourceExcludes) (raw : String),
        rawResourceConfigString expand state defaults excludes = some raw →
        ∃ rest, raw = "resource \"" ++ state.type ++ "\" \""
          ++ sanitizeResourceID state.primary.id ++ "\" \x7b\n" ++ rest)
      ∧ sanitizeResourceID "a.b.c" = "a_b_c"
      ∧ ∀ id : String, tfStateKeyDelimiter ∉ (sanitizeResourceID id).data := by
  refine ⟨?_, by decide, ?_⟩
  · intro expand state defaults excludes raw h
    rw [rawResourceConfigString] at h
    cases hp : topLevelParts expand state defaults excludes with
    | none => rw [hp] at h; cases h
    | some parts =>
      rw [hp] at h
      obtain rfl := Option.some.inj h
      exact ⟨(parts.map Prod.snd).foldl (fun a b => a ++ b) ""
          ++ (getDependsString state.dependencies ++ "\x7d\n"),
        by simp [String.append_assoc]⟩
  · intro id hmem
    obtain ⟨c, -, hc⟩ := List.mem_map.mp hmem
    by_cases h : c = tfStateKeyDelimiter
    · rw [if_pos h] at hc
      exact absurd hc (by decide)
    · rw [if_neg h] at hc
      exact h hc

/-- Claim C7 witness: the theorem applied to a resource of type "widget"
with primary ID "a.b.c": the raw output starts with the header
`resource "widget" "a_b_c" {`. -/
theorem resource_header_sanitized_witness :
    (∃ rest, "resource \"widget\" \"a_b_c\" \x7b\n\x7d\n"
        = "resource \"" ++ "widget" ++ "\" \"" ++ sanitizeResourceID "a.b.c"
          ++ "\" \x7b\n" ++ rest)
      ∧ sanitizeResourceID "a.b.c" = "a_b_c" :=
  ⟨resource_header_sanitized.1 (fun _ _ => Value.vOther)
      ⟨"widget", [], ⟨"a.b.c", []⟩⟩ [] [] _ rfl,
    resource_header_sanitized.2.1⟩

/-- Claim C8: the primitive renderer quotes strings with Go string-literal
quoting (the concrete example shows an embedded quote, backslash and
newline being escaped, and no raw newline ever survives quoting); it
renders booleans as the quoted literals `"true"`/`"false"`, never bare;
it renders integers of every width as bare decimal digits (`vInt`
collapses Go's five integer widths, which all render via `%d`); and every
unrecognized value kind renders as the literal `unknown` without an
error. -/
theorem primitive_rendering_spec :
    (∀ s : String, getPrimitiveValueString (.vString s) = goQuote s
        ∧ '\n' ∉ (getPrimitiveValueString (.vString s)).data)
      ∧ getPrimitiveValueString (.vString "a\"b\\c\nd") = "\"a\\\"b\\\\c\\nd\""
      ∧ (∀ b : Bool, getPrimitiveValueString (.vBool b)
          = if b then "\"true\"" else "\"false\"")
      ∧ (∀ n : Int, getPrimitiveValueString (.vInt n) = Int.repr n)
      ∧ getPrimitiveValueString (.vInt 1) = "1"
      ∧ getPrimitiveValueString (.vInt 8) = "8"
      ∧ getPrimitiveValueString (.vInt 16) = "16"
      ∧ getPrimitiveValueString (.vInt 32) = "32"
      ∧ getPrimitiveValueString (.vInt 64) = "64"
      ∧ getPrimitiveValueString (.vInt (-7)) = "-7"
      ∧ (∀ v : Value, isPrimitive v = false → getPrimitiveValueString v = "unknown") := by
  refine ⟨?_, by decide, ?_, ?_, by decide, by decide, by decide, by decide, by decide,
    by decide, ?_⟩
  · intro s
    exact ⟨rfl, newline_not_mem_goQuote s⟩
  · intro b; cases b <;> rfl
  · intro n; rfl
  · intro v hv; cases v <;> simp_all [isPrimitive, getPrimitiveValueString]

/-- Claim C8 witness: the theorem applied at concrete primitive values of
every kind and at a non-primitive value. -/
theorem primitive_rendering_spec_witness :
    getPrimitiveValueString (.vString "hi") = goQuote "hi"
      ∧ getPrimitiveValueString (.vBool true) = "\"true\""
      ∧ getPrimitiveValueString (.vInt 64) = "64"
      ∧ isPrimitive Value.vOther = false
      ∧ getPrimitiveValueString Value.vOther = "unknown" := by
  have h := primitive_rendering_spec
  exact ⟨(h.1 "hi").1, h.2.2.1 true, h.2.2.2.2.2.2.2.2.1,
    by decide, h.2.2.2.2.2.2.2.2.2.2 Value.vOther (by decide)⟩

/-- Claim C9: the call's only caller-visible mutation is the in-place
insertion of "id" into the excludes set — the returned final values show
the resource state and the defaults map unchanged, and the final excludes
set holding exactly the caller's names plus "id". -/
theorem only_mutation_is_id_insert (format : String → Option String)
    (expand : List (String × String) → String → Value)
    (state : ResourceState) (defaults : ResourceDefaults)
    (excludes : ResourceExcludes) :
    (GetResourceStateConfigStringFull format expand state defaults excludes).2.1 = state
      ∧ (GetResourceStateConfigStringFull format expand state defaults excludes).2.2.1
          = defaults
      ∧ ∀ k, k ∈ (GetResourceStateConfigStringFull format expand state defaults
          excludes).2.2.2 ↔ (k ∈ excludes ∨ k = "id") := by
  refine ⟨rfl, rfl, ?_⟩
  intro k
  show k ∈ insertName "id" excludes ↔ _
  unfold insertName
  by_cases h : excludes.contains "id"
  · rw [if_pos h]
    simp only [List.contains_iff_exists_mem_beq] at h
    obtain ⟨a, ha, hbeq⟩ := h
    have hid : "id" = a := by simpa using hbeq
    rw [← hid] at ha
    constructor
    · exact fun hk => Or.inl hk
    · rintro (hk | rfl)
      · exact hk
      · exact ha
  · rw [if_neg h]
    simp [List.mem_append]

/-- Claim C10: when a list value is non-empty, its first element is not
primitive, and some element is primitive, the per-element type assertion
`item.(map[string]interface\x7b\x7d)` fails at runtime — modelled as the
renderer returning `none` (a panic) instead of any fallback text. -/
theorem mixed_list_panics (attrName : String) (items : List Value)
    (hhead : ∃ v0 rest, items = v0 :: rest ∧ isPrimitive v0 = false)
    (hprim : ∃ v ∈ items, isPrimitive v = true) :
    getAttributeString attrName (Value.vList items) = none := by
  obtain ⟨v0, rest, rfl, h0⟩ := hhead
  have hred : getAttributeString attrName (.vList (v0 :: rest))
      = renderListItems attrName (v0 :: rest) := by
    rw [getAttributeString, if_neg (by simp [h0])]
  rw [hred]
  obtain ⟨v, hv, hp⟩ := hprim
  exact renderListItems_eq_none_of_nonMap attrName _
    ⟨v, hv, isMapValue_eq_false_of_isPrimitive hp⟩

/-- Claim C10 witness: a list whose first element is a map and whose
second element is a primitive string makes the renderer panic. -/
theorem mixed_list_panics_witness :
    getAttributeString "x"
      (Value.vList [Value.vMap [("a", Value.vString "b")], Value.vString "y"]) = none :=
  mixed_list_panics "x" _ ⟨_, _, rfl, by decide⟩
    ⟨Value.vString "y", by simp, by decide⟩

end Terraconf
